import Mathlib

/-!
Verification of the in-memory task tracker against its specification.

The Rust source is embedded shallowly: `Vec<Task>` becomes `List Task`,
the `u32` identifier counter is modelled on `Nat` with explicit reduction
modulo `2 ^ 32` (release-mode wrapping arithmetic), `Option<&Task>` becomes
`Option Task`, and the iterator scans (`iter().find`, `iter().position`,
`iter_mut().find`) become structural recursions over the task list.
-/

namespace TaskTracker

/-- Modulus of `u32` arithmetic. -/
abbrev u32Mod : Nat := 2 ^ 32

/-- Rust `struct Task { id: u32, title: String, done: bool }`. -/
structure Task where
  id : Nat
  title : String
  done : Bool
deriving DecidableEq, Repr

/-- Scan of `mark_done`: `self.tasks.iter_mut().find(|t| t.id == id)` followed by
`task.done = true` — find the first task whose id matches, set its `done` flag,
and report whether a task was found. -/
def markDoneScan : List Task → Nat → Bool × List Task
  | [], _ => (false, [])
  | t :: ts, i =>
    if t.id == i then (true, { t with done := true } :: ts)
    else ((markDoneScan ts i).1, t :: (markDoneScan ts i).2)

/-- Scan of `delete`: remove the first task whose id matches and return it,
together with the remaining list. -/
def deleteScan : List Task → Nat → Option Task × List Task
  | [], _ => (none, [])
  | t :: ts, i =>
    if t.id == i then (some t, ts)
    else ((deleteScan ts i).1, t :: (deleteScan ts i).2)

/-- Embedding of `self.tasks.iter().position(|t| t.id == id)`. -/
def positionScan : List Task → Nat → Option Nat
  | [], _ => none
  | t :: ts, i => if t.id == i then some 0 else (positionScan ts i).map (· + 1)

/-- Embedding of `Vec::remove(pos)`: the removed element and the remaining
vector, or `none` when `pos` is out of bounds (the panic case of `remove`). -/
def vecRemove (l : List Task) (pos : Nat) : Option (Task × List Task) :=
  if h : pos < l.length then some (l.get ⟨pos, h⟩, l.eraseIdx pos) else none

/-- Rust `struct TaskManager { tasks: Vec<Task>, next_id: u32 }`. -/
structure TaskManager where
  tasks : List Task
  next_id : Nat
deriving DecidableEq, Repr

namespace TaskManager

/-- `TaskManager::new`. -/
def new : TaskManager := ⟨[], 1⟩

/-- `TaskManager::create`: allocate `id = next_id`, increment `next_id`
(wrapping `u32` arithmetic), push the new task, return the id. -/
def create (s : TaskManager) (title : String) : Nat × TaskManager :=
  (s.next_id, ⟨s.tasks ++ [⟨s.next_id, title, false⟩], (s.next_id + 1) % u32Mod⟩)

/-- `TaskManager::get`: `self.tasks.iter().find(|t| t.id == id)`. -/
def get (s : TaskManager) (i : Nat) : Option Task :=
  s.tasks.find? (fun t => t.id == i)

/-- `TaskManager::list`. -/
def list (s : TaskManager) : List Task := s.tasks

/-- `TaskManager::mark_done`. -/
def mark_done (s : TaskManager) (i : Nat) : Bool × TaskManager :=
  ((markDoneScan s.tasks i).1, ⟨(markDoneScan s.tasks i).2, s.next_id⟩)

/-- `TaskManager::delete` (total form: position scan + removal fused). -/
def delete (s : TaskManager) (i : Nat) : Option Task × TaskManager :=
  ((deleteScan s.tasks i).1, ⟨(deleteScan s.tasks i).2, s.next_id⟩)

/-- Direct embedding of `TaskManager::delete` as written in the source:
`position(..).map(|pos| self.tasks.remove(pos))`; the outer `none` marks the
panic of `Vec::remove` on an out-of-bounds index. -/
def deleteChecked (s : TaskManager) (i : Nat) : Option (Option Task × TaskManager) :=
  match positionScan s.tasks i with
  | some pos => (vecRemove s.tasks pos).map (fun r => (some r.1, ⟨r.2, s.next_id⟩))
  | none => some (none, s)

end TaskManager

/-- One call of the public interface (arguments included). -/
inductive Op where
  | create (title : String)
  | get (i : Nat)
  | list
  | mark_done (i : Nat)
  | delete (i : Nat)
deriving DecidableEq

/-- State transition of a single call (`get` and `list` are read-only). -/
def step (s : TaskManager) : Op → TaskManager
  | .create t => (s.create t).2
  | .get _ => s
  | .list => s
  | .mark_done i => (s.mark_done i).2
  | .delete i => (s.delete i).2

/-- Run a call sequence from an arbitrary starting state. -/
def runFrom (s : TaskManager) (ops : List Op) : TaskManager := ops.foldl step s

/-- Run a call sequence from `TaskManager.new` — the reachable states. -/
def run (ops : List Op) : TaskManager := runFrom TaskManager.new ops

/-- Number of `create` calls in a call sequence. -/
def countCreates : List Op → Nat
  | [] => 0
  | Op.create _ :: ops => countCreates ops + 1
  | _ :: ops => countCreates ops

/-- The ids returned by the successive `create` calls of a run. -/
def createdIdsFrom : TaskManager → List Op → List Nat
  | _, [] => []
  | s, Op.create t :: ops => (s.create t).1 :: createdIdsFrom (s.create t).2 ops
  | s, op :: ops => createdIdsFrom (step s op) ops

/-- The ids returned by the successive `create` calls, starting from `new`. -/
def createdIds (ops : List Op) : List Nat := createdIdsFrom TaskManager.new ops

/-- One call of the interface in the panic monad: `none` marks a panic of a
partial primitive (only `Vec::remove` inside `delete` is partial; every other
operation is built from total primitives). -/
def callChecked (s : TaskManager) : Op → Option TaskManager
  | .create t => some (s.create t).2
  | .get _ => some s
  | .list => some s
  | .mark_done i => some (s.mark_done i).2
  | .delete i => (s.deleteChecked i).map (fun r => r.2)

example : (TaskManager.new.create "Buy milk").1 = 1 := by decide
example : createdIds [Op.create "a", Op.mark_done 1, Op.create "b", Op.delete 1, Op.create "c"] = [1, 2, 3] := by decide
example : ((run [Op.create "Buy milk", Op.create "Walk dog", Op.mark_done 1]).delete 2).1 = some ⟨2, "Walk dog", false⟩ := by decide
example : ((run [Op.create "Buy milk", Op.create "Walk dog", Op.mark_done 1, Op.delete 2]).create "Read book").1 = 3 := by decide
example : (run [Op.create "Buy milk", Op.create "Walk dog", Op.mark_done 1, Op.delete 2]).list = [⟨1, "Buy milk", true⟩] := by decide
example : TaskManager.deleteChecked (run [Op.create "a", Op.create "b"]) 1 = some (some ⟨1, "a", false⟩, ⟨[⟨2, "b", false⟩], 3⟩) := by decide

/-! Lemmas about the mark-done scan. -/

theorem markDoneScan_nil (i : Nat) : markDoneScan [] i = (false, []) := rfl

theorem markDoneScan_cons (t : Task) (ts : List Task) (i : Nat) :
    markDoneScan (t :: ts) i =
      if t.id == i then (true, { t with done := true } :: ts)
      else ((markDoneScan ts i).1, t :: (markDoneScan ts i).2) := rfl

theorem markDoneScan_not_found {l : List Task} {i : Nat} (h : ∀ t ∈ l, t.id ≠ i) :
    markDoneScan l i = (false, l) := by
  induction l with
  | nil => rfl
  | cons t ts ih =>
    have hb : (t.id == i) = false := by
      simpa using h t (List.mem_cons_self t ts)
    rw [markDoneScan_cons, hb]
    simp [ih fun u hu => h u (List.mem_cons_of_mem t hu)]

theorem markDoneScan_map_id (l : List Task) (i : Nat) :
    (markDoneScan l i).2.map Task.id = l.map Task.id := by
  induction l with
  | nil => rfl
  | cons t ts ih =>
    rw [markDoneScan_cons]
    by_cases hb : (t.id == i) = true
    · simp [hb]
    · rw [Bool.not_eq_true] at hb
      simp [hb, ih]

theorem markDoneScan_map_title (l : List Task) (i : Nat) :
    (markDoneScan l i).2.map Task.title = l.map Task.title := by
  induction l with
  | nil => rfl
  | cons t ts ih =>
    rw [markDoneScan_cons]
    by_cases hb : (t.id == i) = true
    · simp [hb]
    · rw [Bool.not_eq_true] at hb
      simp [hb, ih]

theorem markDoneScan_frame (l : List Task) (i : Nat) :
    ∀ (j : Nat) (t : Task), l[j]? = some t → t.id ≠ i → (markDoneScan l i).2[j]? = some t := by
  induction l with
  | nil => intro j t hj; simp at hj
  | cons u ts ih =>
    intro j t hj hti
    by_cases hm : u.id = i
    · rw [markDoneScan_cons, if_pos (by simpa using hm)]
      cases j with
      | zero =>
        simp only [List.getElem?_cons_zero, Option.some.injEq] at hj
        exact absurd (hj ▸ hm) hti
      | succ j => simpa using hj
    · rw [markDoneScan_cons, if_neg (by simpa using hm)]
      cases j with
      | zero => simpa using hj
      | succ j =>
        simp only [List.getElem?_cons_succ] at hj
        simpa using ih j t hj hti

theorem markDoneScan_fst (l : List Task) (i : Nat) :
    (markDoneScan l i).1 = (l.find? (fun t => t.id == i)).isSome := by
  induction l with
  | nil => rfl
  | cons t ts ih =>
    rw [markDoneScan_cons]
    by_cases hb : (t.id == i) = true
    · simp [List.find?_cons, hb]
    · rw [Bool.not_eq_true] at hb
      simp [List.find?_cons, hb, ih]

theorem markDoneScan_found {l : List Task} {i : Nat} (h : ∃ t ∈ l, t.id = i) :
    (markDoneScan l i).1 = true ∧
    ((markDoneScan l i).2.find? (fun t => t.id == i)).map Task.done = some true ∧
    markDoneScan (markDoneScan l i).2 i = (true, (markDoneScan l i).2) := by
  induction l with
  | nil => simp at h
  | cons t ts ih =>
    by_cases hm : t.id = i
    · have hb : (t.id == i) = true := by simpa using hm
      rw [markDoneScan_cons, if_pos hb]
      refine ⟨rfl, ?_, ?_⟩
      · simp [List.find?_cons, hb]
      · rw [markDoneScan_cons]
        simp [hb]
    · have hb : ¬ ((t.id == i) = true) := by simpa using hm
      obtain ⟨u, hu, hui⟩ := h
      have hu' : u ∈ ts := by
        rcases List.mem_cons.mp hu with h1 | h1
        · exact absurd (h1 ▸ hui) hm
        · exact h1
      obtain ⟨ih1, ih2, ih3⟩ := ih ⟨u, hu', hui⟩
      rw [markDoneScan_cons, if_neg hb]
      refine ⟨by simpa using ih1, ?_, ?_⟩
      · have hb2 : (t.id == i) = false := by simpa using hm
        simpa [List.find?_cons, hb2] using ih2
      · rw [markDoneScan_cons, if_neg hb, ih3]

/-! Lemmas about the delete scan and the position scan. -/

theorem deleteScan_cons (t : Task) (ts : List Task) (i : Nat) :
    deleteScan (t :: ts) i =
      if t.id == i then (some t, ts)
      else ((deleteScan ts i).1, t :: (deleteScan ts i).2) := rfl

theorem positionScan_cons (t : Task) (ts : List Task) (i : Nat) :
    positionScan (t :: ts) i =
      if t.id == i then some 0 else (positionScan ts i).map (· + 1) := rfl

theorem deleteScan_not_found {l : List Task} {i : Nat} (h : ∀ t ∈ l, t.id ≠ i) :
    deleteScan l i = (none, l) := by
  induction l with
  | nil => rfl
  | cons t ts ih =>
    rw [deleteScan_cons, if_neg (by simpa using h t (List.mem_cons_self t ts))]
    simp [ih fun u hu => h u (List.mem_cons_of_mem t hu)]

theorem deleteScan_sublist (l : List Task) (i : Nat) : (deleteScan l i).2.Sublist l := by
  induction l with
  | nil => exact List.Sublist.refl []
  | cons t ts ih =>
    by_cases hm : t.id = i
    · rw [deleteScan_cons, if_pos (by simpa using hm)]
      exact List.sublist_cons_self t ts
    · rw [deleteScan_cons, if_neg (by simpa using hm)]
      exact List.Sublist.cons₂ t ih

theorem deleteScan_fst_isSome (l : List Task) (i : Nat) :
    (deleteScan l i).1.isSome = (l.find? (fun t => t.id == i)).isSome := by
  induction l with
  | nil => rfl
  | cons t ts ih =>
    by_cases hm : t.id = i
    · rw [deleteScan_cons, if_pos (by simpa using hm)]
      simp [List.find?_cons, (by simpa using hm : (t.id == i) = true)]
    · rw [deleteScan_cons, if_neg (by simpa using hm)]
      simp [List.find?_cons, (by simpa using hm : (t.id == i) = false), ih]

theorem deleteScan_found_nodup {l : List Task} {i : Nat} {t : Task}
    (hnd : (l.map Task.id).Nodup) (ht : t ∈ l) (hti : t.id = i) :
    (deleteScan l i).1 = some t ∧ (deleteScan l i).2 = l.filter (fun u => u.id != i) := by
  induction l with
  | nil => simp at ht
  | cons u ts ih =>
    rw [List.map_cons, List.nodup_cons] at hnd
    by_cases hm : u.id = i
    · rw [deleteScan_cons, if_pos (by simpa using hm)]
      have htu : t = u := by
        rcases List.mem_cons.mp ht with h1 | h1
        · exact h1
        · exact absurd (hm ▸ hti ▸ List.mem_map_of_mem Task.id h1) hnd.1
      have hts : ∀ x ∈ ts, (x.id != i) = true := by
        intro x hx
        have : x.id ≠ u.id := fun he => hnd.1 (he ▸ List.mem_map_of_mem Task.id hx)
        simp [hm ▸ this]
      constructor
      · rw [htu]
      · rw [List.filter_cons, if_neg (by simp [hm]), List.filter_eq_self.mpr hts]
    · rw [deleteScan_cons, if_neg (by simpa using hm)]
      have ht' : t ∈ ts := by
        rcases List.mem_cons.mp ht with h1 | h1
        · exact absurd (h1 ▸ hti) hm
        · exact h1
      obtain ⟨ih1, ih2⟩ := ih hnd.2 ht'
      constructor
      · simpa using ih1
      · rw [List.filter_cons, if_pos (by simpa using hm)]
        simp [ih2]

theorem find?_filter_ne (l : List Task) (i : Nat) :
    (l.filter (fun u => u.id != i)).find? (fun t => t.id == i) = none := by
  rw [List.find?_eq_none]
  intro x hx
  simpa using (List.mem_filter.mp hx).2

theorem positionScan_none {l : List Task} {i : Nat} (h : positionScan l i = none) :
    deleteScan l i = (none, l) := by
  induction l with
  | nil => rfl
  | cons t ts ih =>
    by_cases hm : t.id = i
    · rw [positionScan_cons, if_pos (by simpa using hm)] at h
      exact absurd h (by simp)
    · rw [positionScan_cons, if_neg (by simpa using hm)] at h
      rw [deleteScan_cons, if_neg (by simpa using hm)]
      have : positionScan ts i = none := by
        cases hq : positionScan ts i with
        | none => rfl
        | some q => rw [hq] at h; simp at h
      simp [ih this]

theorem positionScan_some {l : List Task} {i : Nat} :
    ∀ p : Nat, positionScan l i = some p →
      ∃ h : p < l.length,
        (deleteScan l i).1 = some (l.get ⟨p, h⟩) ∧ (deleteScan l i).2 = l.eraseIdx p := by
  induction l with
  | nil => intro p hp; exact absurd hp (by simp [positionScan])
  | cons t ts ih =>
    intro p hp
    by_cases hm : t.id = i
    · rw [positionScan_cons, if_pos (by simpa using hm)] at hp
      obtain rfl : 0 = p := by simpa using hp
      refine ⟨by simp, ?_, ?_⟩
      · rw [deleteScan_cons, if_pos (by simpa using hm)]
        simp
      · rw [deleteScan_cons, if_pos (by simpa using hm)]
        simp
    · rw [positionScan_cons, if_neg (by simpa using hm)] at hp
      obtain ⟨q, hq, hq1⟩ := Option.map_eq_some'.mp hp
      obtain ⟨h, h1, h2⟩ := ih q hq
      refine ⟨hq1 ▸ Nat.succ_lt_succ h, ?_, ?_⟩
      · rw [deleteScan_cons, if_neg (by simpa using hm)]
        subst hq1
        simpa using h1
      · rw [deleteScan_cons, if_neg (by simpa using hm)]
        subst hq1
        simp [h2]

theorem deleteChecked_eq (s : TaskManager) (i : Nat) :
    s.deleteChecked i = some (s.delete i) := by
  unfold TaskManager.deleteChecked TaskManager.delete
  cases hp : positionScan s.tasks i with
  | none =>
    rw [positionScan_none hp]
  | some p =>
    obtain ⟨h, h1, h2⟩ := positionScan_some p hp
    unfold vecRemove
    simp [h, h1, h2]

/-! Lemmas about runs of call sequences. -/

theorem runFrom_nil (s : TaskManager) : runFrom s [] = s := rfl

theorem runFrom_cons (s : TaskManager) (op : Op) (ops : List Op) :
    runFrom s (op :: ops) = runFrom (step s op) ops := rfl

theorem u32Mod_pos : 0 < u32Mod := by decide

theorem runFrom_next_id {s : TaskManager} (hs : s.next_id < u32Mod) (ops : List Op) :
    (runFrom s ops).next_id = (s.next_id + countCreates ops) % u32Mod := by
  induction ops generalizing s with
  | nil => simp [runFrom, countCreates, Nat.mod_eq_of_lt hs]
  | cons op ops ih =>
    cases op with
    | create t =>
      rw [runFrom_cons]
      have h2 : (step s (Op.create t)).next_id = (s.next_id + 1) % u32Mod := rfl
      rw [ih (h2 ▸ Nat.mod_lt _ u32Mod_pos), h2, Nat.mod_add_mod]
      show (s.next_id + 1 + countCreates ops) % u32Mod = (s.next_id + (countCreates ops + 1)) % u32Mod
      congr 1
      omega
    | get i => exact ih hs
    | list => exact ih hs
    | mark_done i => exact ih hs
    | delete i => exact ih hs

theorem createdIdsFrom_eq {s : TaskManager} (hs : s.next_id < u32Mod) (ops : List Op) :
    createdIdsFrom s ops =
      (List.range (countCreates ops)).map (fun j => (s.next_id + j) % u32Mod) := by
  induction ops generalizing s with
  | nil => simp [createdIdsFrom, countCreates]
  | cons op ops ih =>
    cases op with
    | create t =>
      have h2 : (step s (Op.create t)).next_id = (s.next_id + 1) % u32Mod := rfl
      show (s.create t).1 :: createdIdsFrom (s.create t).2 ops = _
      rw [ih (s := (s.create t).2) (h2 ▸ Nat.mod_lt _ u32Mod_pos)]
      show s.next_id :: ((List.range (countCreates ops)).map
          (fun j => ((s.next_id + 1) % u32Mod + j) % u32Mod)) =
        (List.range (countCreates ops + 1)).map (fun j => (s.next_id + j) % u32Mod)
      rw [List.range_succ_eq_map, List.map_cons, List.map_map]
      congr 1
      · rw [Nat.add_zero, Nat.mod_eq_of_lt hs]
      · have hf : (fun j => ((s.next_id + 1) % u32Mod + j) % u32Mod) =
            ((fun j => (s.next_id + j) % u32Mod) ∘ Nat.succ) := by
          funext j
          show ((s.next_id + 1) % u32Mod + j) % u32Mod = (s.next_id + (j + 1)) % u32Mod
          rw [Nat.mod_add_mod]
          congr 1
          omega
        rw [hf]
    | get i => exact ih hs
    | list => exact ih hs
    | mark_done i => exact ih hs
    | delete i => exact ih hs

theorem runFrom_ids_sublist (s : TaskManager) (ops : List Op) :
    ((runFrom s ops).tasks.map Task.id).Sublist (s.tasks.map Task.id ++ createdIdsFrom s ops) := by
  induction ops generalizing s with
  | nil => simp [runFrom, createdIdsFrom]
  | cons op ops ih =>
    cases op with
    | create t =>
      have h := ih (s := (s.create t).2)
      have h2 : (s.create t).2.tasks.map Task.id = s.tasks.map Task.id ++ [s.next_id] := by
        show (s.tasks ++ [(⟨s.next_id, t, false⟩ : Task)]).map Task.id = _
        simp
      rw [h2] at h
      show ((runFrom (s.create t).2 ops).tasks.map Task.id).Sublist
        (s.tasks.map Task.id ++ (s.next_id :: createdIdsFrom (s.create t).2 ops))
      simpa [List.append_assoc] using h
    | get i => exact ih (s := s)
    | list => exact ih (s := s)
    | mark_done i =>
      have h := ih (s := (s.mark_done i).2)
      have h2 : (s.mark_done i).2.tasks.map Task.id = s.tasks.map Task.id :=
        markDoneScan_map_id s.tasks i
      rw [h2] at h
      exact h
    | delete i =>
      have h := ih (s := (s.delete i).2)
      have h2 : ((s.delete i).2.tasks.map Task.id).Sublist (s.tasks.map Task.id) :=
        (deleteScan_sublist s.tasks i).map Task.id
      exact h.trans (h2.append (List.Sublist.refl _))

theorem run_ids_sublist (ops : List Op) :
    ((run ops).tasks.map Task.id).Sublist (createdIds ops) := by
  have h := runFrom_ids_sublist TaskManager.new ops
  simpa [TaskManager.new, createdIds] using h

theorem countCreates_replicate (n : Nat) (t : String) :
    countCreates (List.replicate n (Op.create t)) = n := by
  induction n with
  | zero => rfl
  | succ n ih => rw [List.replicate_succ]; simp [countCreates, ih]

theorem runFrom_replicate_create (t : String) :
    ∀ (n : Nat) (s : TaskManager),
      (runFrom s (List.replicate n (Op.create t))).tasks =
        s.tasks ++ (createdIdsFrom s (List.replicate n (Op.create t))).map
          (fun j => (⟨j, t, false⟩ : Task)) := by
  intro n
  induction n with
  | zero => intro s; simp [runFrom, createdIdsFrom]
  | succ n ih =>
    intro s
    rw [List.replicate_succ, runFrom_cons]
    show (runFrom (s.create t).2 (List.replicate n (Op.create t))).tasks =
      s.tasks ++ ((s.create t).1 :: createdIdsFrom (s.create t).2 (List.replicate n (Op.create t))).map
        (fun j => (⟨j, t, false⟩ : Task))
    rw [ih (s.create t).2]
    show s.tasks ++ [(⟨s.next_id, t, false⟩ : Task)] ++ _ = _
    simp only [List.append_assoc, List.map_cons, List.singleton_append]
    rfl

theorem run_replicate_tasks (n : Nat) (t : String) :
    (run (List.replicate n (Op.create t))).tasks =
      (List.range n).map (fun j => (⟨(1 + j) % u32Mod, t, false⟩ : Task)) := by
  rw [run, runFrom_replicate_create, createdIdsFrom_eq (by decide), countCreates_replicate]
  show [] ++ _ = _
  rw [List.nil_append, List.map_map]
  rfl

theorem run_replicate_ids (n : Nat) (t : String) :
    (run (List.replicate n (Op.create t))).tasks.map Task.id =
      (List.range n).map (fun j => (1 + j) % u32Mod) := by
  rw [run_replicate_tasks, List.map_map]
  rfl

theorem add_one_mod_inj {a b : Nat} (ha : a < u32Mod) (hb : b < u32Mod)
    (h : (1 + a) % u32Mod = (1 + b) % u32Mod) : a = b := by
  rcases Nat.lt_or_ge (1 + a) u32Mod with h1 | h1 <;>
    rcases Nat.lt_or_ge (1 + b) u32Mod with h2 | h2
  · rw [Nat.mod_eq_of_lt h1, Nat.mod_eq_of_lt h2] at h
    omega
  · have hb2 : 1 + b = u32Mod := by omega
    rw [Nat.mod_eq_of_lt h1, hb2, Nat.mod_self] at h
    omega
  · have ha2 : 1 + a = u32Mod := by omega
    rw [ha2, Nat.mod_self, Nat.mod_eq_of_lt h2] at h
    omega
  · omega

theorem createdIds_formula (ops : List Op) :
    createdIds ops = (List.range (countCreates ops)).map (fun j => (1 + j) % u32Mod) := by
  rw [createdIds, createdIdsFrom_eq (by decide)]
  rfl

theorem createdIds_nodup {ops : List Op} (h : countCreates ops ≤ u32Mod) :
    (createdIds ops).Nodup := by
  rw [createdIds_formula]
  refine List.Nodup.map_on ?_ (List.nodup_range _)
  intro x hx y hy hxy
  exact add_one_mod_inj (lt_of_lt_of_le (List.mem_range.mp hx) h)
    (lt_of_lt_of_le (List.mem_range.mp hy) h) hxy

theorem run_next_id (ops : List Op) :
    (run ops).next_id = (1 + countCreates ops) % u32Mod := by
  have h := runFrom_next_id (s := TaskManager.new) (by decide) ops
  exact h

theorem run_id_ne_next {ops : List Op} (h : countCreates ops < u32Mod) :
    ∀ t ∈ (run ops).tasks, t.id ≠ (run ops).next_id := by
  intro t ht he
  have hid : t.id ∈ createdIds ops :=
    (run_ids_sublist ops).subset (List.mem_map_of_mem Task.id ht)
  rw [createdIds_formula] at hid
  obtain ⟨j, hj, hje⟩ := List.mem_map.mp hid
  have hj' := List.mem_range.mp hj
  have hc : (1 + j) % u32Mod = (1 + countCreates ops) % u32Mod := by
    rw [hje, he, run_next_id]
  have : j = countCreates ops := add_one_mod_inj (lt_trans hj' h) h hc
  omega

theorem create_fst (s : TaskManager) (x : String) : (s.create x).1 = s.next_id := rfl

theorem map_range_inj {f g : Nat → Nat} {n : Nat}
    (h : (List.range n).map f = (List.range n).map g) : ∀ i, i < n → f i = g i := by
  intro i hi
  have h1 : ((List.range n).map f)[i]? = ((List.range n).map g)[i]? := by rw [h]
  rw [List.getElem?_map, List.getElem?_map, List.getElem?_range hi] at h1
  simpa using h1

theorem find_head_one {n : Nat} (hn : 0 < n) (t : String) (l2 : List Task) :
    (((List.range n).map (fun j => (⟨(1 + j) % u32Mod, t, false⟩ : Task))) ++ l2).find?
      (fun u => u.id == 1) = some ⟨1, t, false⟩ := by
  obtain ⟨m, rfl⟩ : ∃ m, n = m + 1 := ⟨n - 1, by omega⟩
  rw [List.range_succ_eq_map, List.map_cons, List.cons_append]
  have h1 : (1 + 0) % u32Mod = 1 := by decide
  rw [h1]
  exact List.find?_cons_of_pos _ rfl

/-! Settling the claims. -/

/-- C1 (amended): in every run from `new`, the ids returned by the successive
`create` calls are `(1 + j) % 2 ^ 32` for `j = 0, 1, 2, ...`, regardless of
intervening `delete` and `mark_done` calls; in particular, as long as fewer
than `2 ^ 32` creates occur they are exactly `1, 2, 3, ...` (strictly
increasing by 1, starting at 1). -/
theorem createdIds_sequential (ops : List Op) :
    createdIds ops = (List.range (countCreates ops)).map (fun j => (1 + j) % u32Mod) ∧
    (countCreates ops < u32Mod → createdIds ops = List.range' 1 (countCreates ops)) := by
  refine ⟨createdIds_formula ops, fun hc => ?_⟩
  rw [createdIds_formula, List.range'_eq_map_range]
  apply List.map_congr_left
  intro j hj
  have hjc := List.mem_range.mp hj
  exact Nat.mod_eq_of_lt (by omega)

/-- Witness for C1: a run with three creates interleaved with `mark_done` and
`delete` returns ids 1, 2, 3. -/
theorem createdIds_sequential_example :
    createdIds [Op.create "a", Op.mark_done 1, Op.create "b", Op.delete 1, Op.create "c"] =
      List.range' 1
        (countCreates [Op.create "a", Op.mark_done 1, Op.create "b", Op.delete 1, Op.create "c"]) :=
  (createdIds_sequential _).2 (by decide)

/-- Counterexample to C1 as stated: the `2 ^ 32`-th create call (here, after
`2 ^ 32 - 1` earlier creates) returns id `0`, not `2 ^ 32` — the `u32`
counter wraps, so the ids are not `1, 2, 3, ...` forever. -/
theorem createdIds_wraps :
    ((run (List.replicate (u32Mod - 1) (Op.create "t"))).create "t").1 = 0 := by
  rw [create_fst, run_next_id, countCreates_replicate]
  decide

/-- C2 (amended): on every store reached from `new` by fewer than `2 ^ 32`
creates, `create x` returns an id `k` such that `get k` on the resulting
store is the task `Task.mk k x false`, and the new task is appended at the
end of the sequence.  (After `2 ^ 32` creates the wrapped counter can collide
with a present id and `get k` then finds the older task first.) -/
theorem create_then_get {ops : List Op} (hc : countCreates ops < u32Mod) (x : String) :
    ((run ops).create x).2.get ((run ops).create x).1 =
      some ⟨((run ops).create x).1, x, false⟩ ∧
    ((run ops).create x).2.tasks =
      (run ops).tasks ++ [(⟨((run ops).create x).1, x, false⟩ : Task)] := by
  refine ⟨?_, rfl⟩
  show ((run ops).tasks ++ [(⟨(run ops).next_id, x, false⟩ : Task)]).find?
      (fun t => t.id == (run ops).next_id) = some ⟨(run ops).next_id, x, false⟩
  have hnone : (run ops).tasks.find? (fun t => t.id == (run ops).next_id) = none := by
    rw [List.find?_eq_none]
    intro u hu
    simpa using run_id_ne_next hc u hu
  rw [List.find?_append, hnone, Option.none_or]
  simp [List.find?_cons]

/-- Witness for C2: creating on the empty store and reading the id back. -/
theorem create_then_get_example :
    ((run []).create "Buy milk").2.get ((run []).create "Buy milk").1 =
      some ⟨((run []).create "Buy milk").1, "Buy milk", false⟩ ∧
    ((run []).create "Buy milk").2.tasks =
      (run []).tasks ++ [(⟨((run []).create "Buy milk").1, "Buy milk", false⟩ : Task)] :=
  create_then_get (by decide) "Buy milk"

/-- Counterexample to C2 as stated over all reachable stores: after `2 ^ 32`
creates of title "a" the wrapped counter reissues id 1, and `get` on the id
just returned by `create "X"` finds the old task titled "a", not "X". -/
theorem create_then_get_wraps :
    (((run (List.replicate u32Mod (Op.create "a"))).create "X").1 = 1) ∧
    ((((run (List.replicate u32Mod (Op.create "a"))).create "X").2).get
        (((run (List.replicate u32Mod (Op.create "a"))).create "X").1)).map Task.title =
      some "a" := by
  have hnext : (run (List.replicate u32Mod (Op.create "a"))).next_id = 1 := by
    rw [run_next_id, countCreates_replicate]
    decide
  have key : ∀ s : TaskManager, s.next_id = 1 →
      s.tasks = (List.range u32Mod).map (fun j => (⟨(1 + j) % u32Mod, "a", false⟩ : Task)) →
      ((s.create "X").2).get ((s.create "X").1) = some ⟨1, "a", false⟩ := by
    intro s h1 h2
    show (s.tasks ++ [(⟨s.next_id, "X", false⟩ : Task)]).find?
        (fun t => t.id == s.next_id) = some ⟨1, "a", false⟩
    rw [h1, h2, find_head_one (by decide)]
  have hget := key (run (List.replicate u32Mod (Op.create "a"))) hnext
    (run_replicate_tasks u32Mod "a")
  refine ⟨?_, by rw [hget]; rfl⟩
  rw [create_fst]
  exact hnext

/-- C3 (amended): in every store whose present ids are pairwise distinct —
true of every store reachable with at most `2 ^ 32` creates — deleting an
existing id returns exactly that task, and afterwards `get` of the id is
absent, `list` no longer contains the id, and the remaining tasks keep their
original relative order (the new list is the old one filtered); `next_id` is
unchanged.  (On a post-wraparound store holding two tasks with the same id,
`delete` removes only the first and `get` still succeeds afterwards.) -/
theorem delete_existing (s : TaskManager) (k : Nat) (t : Task)
    (hnd : (s.tasks.map Task.id).Nodup) (ht : t ∈ s.tasks) (hti : t.id = k) :
    (s.delete k).1 = some t ∧
    ((s.delete k).2).list = s.list.filter (fun u => u.id != k) ∧
    ((s.delete k).2).get k = none ∧
    ((s.delete k).2).next_id = s.next_id := by
  obtain ⟨h1, h2⟩ := deleteScan_found_nodup hnd ht hti
  refine ⟨h1, h2, ?_, rfl⟩
  show (deleteScan s.tasks k).2.find? (fun u => u.id == k) = none
  rw [h2]
  exact find?_filter_ne s.tasks k

/-- Witness for C3 on a concrete two-task store. -/
theorem delete_existing_example :
    ((⟨[⟨1, "a", true⟩, ⟨2, "b", false⟩], 3⟩ : TaskManager).delete 1).1 = some ⟨1, "a", true⟩ ∧
    ((⟨[⟨1, "a", true⟩, ⟨2, "b", false⟩], 3⟩ : TaskManager).delete 1).2.list =
      (⟨[⟨1, "a", true⟩, ⟨2, "b", false⟩], 3⟩ : TaskManager).list.filter (fun u => u.id != 1) ∧
    ((⟨[⟨1, "a", true⟩, ⟨2, "b", false⟩], 3⟩ : TaskManager).delete 1).2.get 1 = none ∧
    ((⟨[⟨1, "a", true⟩, ⟨2, "b", false⟩], 3⟩ : TaskManager).delete 1).2.next_id =
      (⟨[⟨1, "a", true⟩, ⟨2, "b", false⟩], 3⟩ : TaskManager).next_id :=
  delete_existing _ 1 ⟨1, "a", true⟩ (by decide) (by decide) rfl

theorem delete_head_dup (s : TaskManager) (x : Task) (l : List Task) (y : Task)
    (hs : s.tasks = x :: l) (hx : (x.id == 1) = true) (hy : y ∈ l)
    (hyi : (y.id == 1) = true) : (((s.delete 1).2).get 1).isSome = true := by
  show ((deleteScan s.tasks 1).2.find? fun u => u.id == 1).isSome = true
  rw [hs, deleteScan_cons, if_pos hx]
  exact List.find?_isSome.mpr ⟨y, hy, hyi⟩

/-- Counterexample to C3 as stated over all reachable stores: after
`2 ^ 32 + 1` creates two tasks share id 1; deleting id 1 removes only the
first of them, so `get 1` still succeeds on the resulting store. -/
theorem delete_leaves_duplicate :
    ((((run (List.replicate (u32Mod + 1) (Op.create "t"))).delete 1).2).get 1).isSome =
      true :=
  delete_head_dup (run (List.replicate (u32Mod + 1) (Op.create "t")))
    ((fun j => (⟨(1 + j) % u32Mod, "t", false⟩ : Task)) 0)
    ((List.map Nat.succ (List.range u32Mod)).map
      (fun j => (⟨(1 + j) % u32Mod, "t", false⟩ : Task)))
    ((fun j => (⟨(1 + j) % u32Mod, "t", false⟩ : Task)) (Nat.succ (u32Mod - 1)))
    (by rw [run_replicate_tasks, List.range_succ_eq_map, List.map_cons])
    (by decide)
    (List.mem_map_of_mem (fun j => (⟨(1 + j) % u32Mod, "t", false⟩ : Task))
      (List.mem_map_of_mem Nat.succ
        (show u32Mod - 1 ∈ List.range u32Mod from List.mem_range.mpr (by decide))))
    (by decide)

/-- C4: `mark_done` on an existing id returns `true`, afterwards `get` shows
`done = true`, and a second `mark_done` of the same id returns `true` again
and leaves the store identical. -/
theorem mark_done_existing (s : TaskManager) (k : Nat) (h : ∃ t ∈ s.tasks, t.id = k) :
    (s.mark_done k).1 = true ∧
    (((s.mark_done k).2).get k).map Task.done = some true ∧
    ((s.mark_done k).2).mark_done k = (true, (s.mark_done k).2) := by
  obtain ⟨h1, h2, h3⟩ := markDoneScan_found h
  refine ⟨h1, h2, ?_⟩
  show ((markDoneScan (markDoneScan s.tasks k).2 k).1,
      (⟨(markDoneScan (markDoneScan s.tasks k).2 k).2, s.next_id⟩ : TaskManager)) =
    (true, (⟨(markDoneScan s.tasks k).2, s.next_id⟩ : TaskManager))
  rw [h3]

/-- Witness for C4 on a concrete one-task store. -/
theorem mark_done_existing_example :
    ((⟨[⟨1, "a", false⟩], 2⟩ : TaskManager).mark_done 1).1 = true ∧
    ((((⟨[⟨1, "a", false⟩], 2⟩ : TaskManager).mark_done 1).2).get 1).map Task.done = some true ∧
    (((⟨[⟨1, "a", false⟩], 2⟩ : TaskManager).mark_done 1).2).mark_done 1 =
      (true, ((⟨[⟨1, "a", false⟩], 2⟩ : TaskManager).mark_done 1).2) :=
  mark_done_existing ⟨[⟨1, "a", false⟩], 2⟩ 1 (by decide)

/-- C5: on an id that is not present, `mark_done` returns `false` and `delete`
returns `none`, and both leave the store entirely unchanged (same task
sequence and same `next_id`). -/
theorem missing_id_noop (s : TaskManager) (k : Nat) (h : ∀ t ∈ s.tasks, t.id ≠ k) :
    s.mark_done k = (false, s) ∧ s.delete k = (none, s) := by
  constructor
  · show ((markDoneScan s.tasks k).1,
        (⟨(markDoneScan s.tasks k).2, s.next_id⟩ : TaskManager)) = (false, s)
    rw [markDoneScan_not_found h]
  · show ((deleteScan s.tasks k).1,
        (⟨(deleteScan s.tasks k).2, s.next_id⟩ : TaskManager)) = (none, s)
    rw [deleteScan_not_found h]

/-- Witness for C5 with the absent id 0 on a concrete store. -/
theorem missing_id_noop_example :
    (⟨[⟨1, "a", false⟩], 2⟩ : TaskManager).mark_done 0 = (false, ⟨[⟨1, "a", false⟩], 2⟩) ∧
    (⟨[⟨1, "a", false⟩], 2⟩ : TaskManager).delete 0 = (none, ⟨[⟨1, "a", false⟩], 2⟩) :=
  missing_id_noop _ 0 (by decide)

/-- C6 (amended): the ids present in any store reachable from `new` by a call
sequence with at most `2 ^ 32` creates are pairwise distinct.  (At the
`(2 ^ 32 + 1)`-th create the wrapped counter reissues id 1 and the invariant
breaks.) -/
theorem run_ids_nodup {ops : List Op} (h : countCreates ops ≤ u32Mod) :
    ((run ops).tasks.map Task.id).Nodup :=
  (run_ids_sublist ops).nodup (createdIds_nodup h)

/-- Witness for C6 on a small interleaved run. -/
theorem run_ids_nodup_example :
    ((run [Op.create "a", Op.create "b", Op.delete 1]).tasks.map Task.id).Nodup :=
  run_ids_nodup (by decide)

/-- Counterexample to C6 as stated: after `2 ^ 32 + 1` creates the store is
reachable yet holds two tasks with id 1, at positions 0 and `2 ^ 32`. -/
theorem run_ids_dup :
    ((run (List.replicate (u32Mod + 1) (Op.create "t"))).tasks.map Task.id)[0]? = some 1 ∧
    ((run (List.replicate (u32Mod + 1) (Op.create "t"))).tasks.map Task.id)[u32Mod]? =
      some 1 := by
  rw [run_replicate_ids]
  constructor
  · rw [List.getElem?_map, List.getElem?_range (by omega)]
    show some ((1 + 0) % u32Mod) = some 1
    decide
  · rw [List.getElem?_map, List.getElem?_range (by omega)]
    show some ((1 + u32Mod) % u32Mod) = some 1
    decide

/-- C7 (amended): `next_id` equals `(1 + number of creates) % 2 ^ 32`; `delete`
never changes `next_id`; as long as fewer than `2 ^ 32 - 1` creates have
occurred, `next_id` is strictly greater than every id ever issued; and as
long as at most `2 ^ 32` creates occur no id is ever issued twice (so a
deleted id is never reissued).  (At the `(2 ^ 32 - 1)`-th create the counter
wraps to 0 and the strict bound fails.) -/
theorem next_id_dominates (ops : List Op) :
    (run ops).next_id = (1 + countCreates ops) % u32Mod ∧
    (∀ (s : TaskManager) (k : Nat), ((s.delete k).2).next_id = s.next_id) ∧
    (countCreates ops < u32Mod - 1 → ∀ i ∈ createdIds ops, i < (run ops).next_id) ∧
    (countCreates ops ≤ u32Mod → (createdIds ops).Nodup) := by
  refine ⟨run_next_id ops, fun s k => rfl, fun hc i hi => ?_, fun h => createdIds_nodup h⟩
  rw [createdIds_formula] at hi
  obtain ⟨j, hj, hje⟩ := List.mem_map.mp hi
  have hj' := List.mem_range.mp hj
  rw [run_next_id, Nat.mod_eq_of_lt (by omega)]
  rw [Nat.mod_eq_of_lt (by omega)] at hje
  omega

/-- Witness for C7 on a two-create run. -/
theorem next_id_dominates_example :
    (∀ i ∈ createdIds [Op.create "a", Op.create "b"],
      i < (run [Op.create "a", Op.create "b"]).next_id) ∧
    (createdIds [Op.create "a", Op.create "b"]).Nodup :=
  ⟨(next_id_dominates [Op.create "a", Op.create "b"]).2.2.1 (by decide),
    (next_id_dominates [Op.create "a", Op.create "b"]).2.2.2 (by decide)⟩

/-- Counterexample to C7 as stated: after `2 ^ 32 - 1` creates, id 1 has been
issued but `next_id` has wrapped to 0, which is not greater than 1. -/
theorem next_id_wraps :
    1 ∈ createdIds (List.replicate (u32Mod - 1) (Op.create "t")) ∧
    (run (List.replicate (u32Mod - 1) (Op.create "t"))).next_id = 0 := by
  constructor
  · rw [createdIds_formula, countCreates_replicate]
    exact List.mem_map.mpr ⟨0, List.mem_range.mpr (by decide), by decide⟩
  · rw [run_next_id, countCreates_replicate]
    decide

/-- C8: every operation is total.  All operations except `delete` are built
from total primitives (create uses wrapping `u32` arithmetic and always
succeeds, also on an empty title); the one partial primitive in the source,
`Vec::remove` inside `delete`, is exercised only at an in-bounds index, so
the checked embedding never reaches its panic marker — on any store and any
argument, including id 0 and the empty store. -/
theorem operations_total (s : TaskManager) (op : Op) (k : Nat) :
    callChecked s op = some (step s op) ∧ s.deleteChecked k = some (s.delete k) := by
  refine ⟨?_, deleteChecked_eq s k⟩
  cases op with
  | create t => rfl
  | get i => rfl
  | list => rfl
  | mark_done i => rfl
  | delete i =>
    show (s.deleteChecked i).map (fun r => r.2) = some (s.delete i).2
    rw [deleteChecked_eq]
    rfl

/-- C9: `mark_done` never changes any task's id or title, never changes
`next_id`, and leaves every task whose id differs from the argument entirely
unchanged at its position; `create` only appends, and `delete` only removes
(the surviving tasks are a sublist of the originals, unmodified). -/
theorem mark_done_frame (s : TaskManager) (k : Nat) :
    ((s.mark_done k).2).tasks.map Task.id = s.tasks.map Task.id ∧
    ((s.mark_done k).2).tasks.map Task.title = s.tasks.map Task.title ∧
    ((s.mark_done k).2).next_id = s.next_id ∧
    (∀ (j : Nat) (t : Task), s.tasks[j]? = some t → t.id ≠ k →
      ((s.mark_done k).2).tasks[j]? = some t) ∧
    (∀ x : String, ((s.create x).2).tasks = s.tasks ++ [(⟨s.next_id, x, false⟩ : Task)]) ∧
    ((s.delete k).2).tasks.Sublist s.tasks :=
  ⟨markDoneScan_map_id s.tasks k, markDoneScan_map_title s.tasks k, rfl,
    markDoneScan_frame s.tasks k, fun _ => rfl, deleteScan_sublist s.tasks k⟩

/-- Witness for C9: marking id 1 done leaves the task with id 2 untouched. -/
theorem mark_done_frame_example :
    ((⟨[⟨1, "a", false⟩, ⟨2, "b", false⟩], 3⟩ : TaskManager).mark_done 1).2.tasks[1]? =
      some ⟨2, "b", false⟩ :=
  (mark_done_frame ⟨[⟨1, "a", false⟩, ⟨2, "b", false⟩], 3⟩ 1).2.2.2.1 1 ⟨2, "b", false⟩
    (by decide) (by decide)

/-- C10 (amended): on any store whatsoever, `get`, `mark_done` and `delete`
agree on presence of an id; and on every store reachable with fewer than
`2 ^ 32` creates, id 0 has never been issued, so `get 0` is absent,
`mark_done 0` returns `false` and `delete 0` returns `none`.  (After exactly
`2 ^ 32` creates the wrapped counter does issue id 0.) -/
theorem lookup_agreement (s : TaskManager) (k : Nat) (ops : List Op) :
    ((s.get k).isSome = (s.mark_done k).1 ∧
      (s.get k).isSome = ((s.delete k).1).isSome) ∧
    (countCreates ops < u32Mod →
      (run ops).get 0 = none ∧ ((run ops).mark_done 0).1 = false ∧
        ((run ops).delete 0).1 = none) := by
  refine ⟨⟨(markDoneScan_fst s.tasks k).symm, (deleteScan_fst_isSome s.tasks k).symm⟩,
    fun hc => ?_⟩
  have h0 : ∀ t ∈ (run ops).tasks, t.id ≠ 0 := by
    intro t ht he
    have hid : t.id ∈ createdIds ops :=
      (run_ids_sublist ops).subset (List.mem_map_of_mem Task.id ht)
    rw [createdIds_formula] at hid
    obtain ⟨j, hj, hje⟩ := List.mem_map.mp hid
    have hj' := List.mem_range.mp hj
    rw [Nat.mod_eq_of_lt (by omega)] at hje
    omega
  have hget : (run ops).get 0 = none := by
    rw [TaskManager.get, List.find?_eq_none]
    intro x hx
    simpa using h0 x hx
  refine ⟨hget, ?_, ?_⟩
  · show (markDoneScan (run ops).tasks 0).1 = false
    rw [markDoneScan_fst,
      show ((run ops).tasks.find? fun t => t.id == 0) = (run ops).get 0 from rfl, hget]
    rfl
  · have hd := deleteScan_fst_isSome (run ops).tasks 0
    rw [show ((run ops).tasks.find? fun t => t.id == 0) = (run ops).get 0 from rfl, hget] at hd
    cases hcase : ((run ops).delete 0).1 with
    | none => rfl
    | some u =>
      rw [show ((run ops).delete 0).1 = (deleteScan (run ops).tasks 0).1 from rfl] at hcase
      rw [hcase] at hd
      simp at hd

/-- Witness for C10 on a one-create run. -/
theorem lookup_agreement_example :
    (run [Op.create "a"]).get 0 = none ∧ ((run [Op.create "a"]).mark_done 0).1 = false ∧
      ((run [Op.create "a"]).delete 0).1 = none :=
  (lookup_agreement TaskManager.new 0 [Op.create "a"]).2 (by decide)

/-- Counterexample to the id-0 part of C10 as stated: after `2 ^ 32` creates
the store is reachable and contains a task with id 0, so `get 0` succeeds. -/
theorem id_zero_present :
    ((run (List.replicate u32Mod (Op.create "t"))).get 0).isSome = true := by
  have hmem : (⟨(1 + (u32Mod - 1)) % u32Mod, "t", false⟩ : Task) ∈
      (run (List.replicate u32Mod (Op.create "t"))).tasks := by
    rw [run_replicate_tasks]
    exact List.mem_map_of_mem _ (List.mem_range.mpr (by decide))
  rw [TaskManager.get]
  exact List.find?_isSome.mpr ⟨_, hmem, by decide⟩

end TaskTracker
